import Mathlib

/-!
# Verification of the `@maks11060/bits` bit-flag library

Shallow embedding of `src/bitSet.ts` (the `BitSet` class, the spec's
"FlagSet"): the dual-kind stored value (JS `number` vs `BigInt`), the
registry of named flags, the static mask function `BitSet.bit`, the
mutators/accessors, the `entries(true)` iterator and the string-parsing
constructors of `BitSet.Instance`.

Modelling conventions:
* A JS `number` that the library can store is always an integer or `NaN`
  (initial values come from integer literals, `parseInt`, or 32-bit
  bitwise operations), so it is embedded as `Option Int` with `none`
  standing for `NaN`.  Floating-point rounding of parse results above
  2^53 is not modelled; no claim depends on it.
* JS 32-bit bitwise operators convert each operand with `ToInt32` and
  return a signed 32-bit integer.  They are embedded by taking the
  unsigned 32-bit pattern of each operand (`numToUint32`), combining the
  patterns with `Nat` bitwise operations, and re-signing the result
  (`ofUint32`), which is exactly the ECMAScript semantics on integers.
* A JS `BigInt` is embedded as `Int`; JS `BigInt` bitwise operators are
  the two's-complement operations `Int.lor`, `Int.land`, `Int.xor` and
  `Int.lnot` (`~x = -x-1`).
* Thrown JS exceptions are embedded as `Except JsErr`.  `JsErr.bitRange`
  is the `Error('The maximum bit number must be less than 32')` thrown by
  `BitSet.bit` (the spec's "RangeError" kind); `JsErr.typeErr` is the
  `TypeError` produced when an `undefined` registry lookup reaches
  `1n << undefined` / `BigInt(undefined)` (the spec's "UnknownFlagError"
  kind); `JsErr.badFormat` is the `SyntaxError` thrown by
  `BigInt(string)` on malformed input, carrying the offending string.
* A JS plain object used as a registry is embedded as an association
  list in insertion order; the registries appearing in the claims have
  no integer-like or empty keys, so `Object.keys` order is insertion
  order.
-/

namespace BitsSpec

/-- ECMAScript `ToUint32` restricted to mathematical integers:
the unsigned 32-bit pattern of `x`. -/
def toUint32N (x : Int) : Nat := (x % (2 ^ 32 : Int)).toNat

/-- Re-sign an unsigned 32-bit pattern as ECMAScript `ToInt32` does
(values with bit 31 set become negative). -/
def ofUint32 (u : Nat) : Int := if u < 2 ^ 31 then (u : Int) else (u : Int) - 2 ^ 32

/-- The JS numbers the library stores: `none` is `NaN`, `some x` is the
integer `x`. -/
abbrev JsNum := Option Int

/-- The unsigned 32-bit pattern of a stored JS number (`ToUint32`;
`NaN` converts to `0`). -/
def numToUint32 : JsNum → Nat
  | none => 0
  | some x => toUint32N x

/-- JS `a | b` on numbers. -/
def jsOr (a b : JsNum) : JsNum := some (ofUint32 (numToUint32 a ||| numToUint32 b))

/-- JS `a & b` on numbers, as the resulting integer. -/
def jsAndI (a b : JsNum) : Int := ofUint32 (numToUint32 a &&& numToUint32 b)

/-- JS `a & b` on numbers. -/
def jsAnd (a b : JsNum) : JsNum := some (jsAndI a b)

/-- JS `a ^ b` on numbers. -/
def jsXor (a b : JsNum) : JsNum := some (ofUint32 (numToUint32 a ^^^ numToUint32 b))

/-- JS `~a` on numbers (complement of the 32-bit pattern). -/
def jsNot (a : JsNum) : JsNum := some (ofUint32 (numToUint32 a ^^^ (2 ^ 32 - 1)))

/-- JS `Boolean(x)` for a number `x`: `false` exactly on `0` and `NaN`. -/
def jsTruthyNum : JsNum → Bool
  | none => false
  | some x => decide (x ≠ 0)

/-- The exceptions the embedded code can throw. -/
inductive JsErr
  /-- The `Error('The maximum bit number must be less than 32')` thrown by
  `BitSet.bit` on a number argument above 31 (spec §7 "RangeError"). -/
  | bitRange
  /-- The `TypeError` raised when a failed registry lookup (`undefined`)
  reaches `1n << undefined` (number kind) or `BigInt(undefined)`
  (bigint kind) (spec §7 "UnknownFlagError"). -/
  | typeErr
  /-- The `SyntaxError` thrown by `BigInt(string)` on a malformed digit
  string; the argument is the offending input (spec §7 "FormatError"). -/
  | badFormat (input : String)
  deriving DecidableEq

/-- Embeds `BitSet.bit` on a number argument (`bitSet.ts` lines 95-101):
throws when `n > 31`, otherwise returns `1 << n`, whose shift count is
`ToUint32(n) mod 32` and whose result is a signed 32-bit integer. -/
def bitNum (n : Int) : Except JsErr Int :=
  if 31 < n then .error .bitRange
  else .ok (ofUint32 (2 ^ (toUint32N n % 32)))

/-- Embeds `BitSet.bit` on a bigint argument (`bitSet.ts` line 100): `1n << n`,
no upper bound. -/
def bitBig (n : Nat) : Int := ((2 ^ n : Nat) : Int)

/-- A flag registry: name → bit-index pairs in insertion order. -/
abbrev Registry := List (String × Nat)

/-- JS property read `options[k]`: the value at key `k`, or `undefined`
(`none`). -/
def Registry.lookup (r : Registry) (k : String) : Option Nat :=
  (r.find? (fun p => p.1 = k)).map (fun p => p.2)

/-- The stored `#value` of a `BitSet`: its kind is fixed by which JS
type it holds. -/
inductive StoredVal
  | num (v : JsNum)
  | big (v : Int)
  deriving DecidableEq

/-- The embedded `BitSet` instance: a registry (`options`) and the
stored value. -/
structure BitSetE where
  options : Registry
  value : StoredVal
  deriving DecidableEq

/-- An observable JS scalar together with its type tag, as returned by
the `value` getter, `get` and `toJSON`. -/
inductive ScalarVal
  | num (n : Int)
  | big (n : Int)
  deriving DecidableEq

/-- The `value` getter (`bitSet.ts` lines 52-56): a number is reported
unsigned via `>>> 0`, a bigint is returned as is. -/
def BitSetE.valueAcc (s : BitSetE) : ScalarVal :=
  match s.value with
  | .num v => .num ((numToUint32 v : Nat) : Int)
  | .big v => .big v

/-- Argument of the mutators/accessors: a flag name or a raw bit index
(`typeof bit === 'number' ? bit : this.options[bit]`). -/
def resolveArg (opts : Registry) : String ⊕ Nat → Option Nat
  | .inr i => some i
  | .inl k => opts.lookup k

/-- Embeds `BitSet.prototype.set` (`bitSet.ts` lines 173-185).  A failed name
lookup feeds `undefined` into the mask computation, which throws a
`TypeError` in both kinds before any assignment happens. -/
def BitSetE.setOp (s : BitSetE) (a : String ⊕ Nat) : Except JsErr BitSetE :=
  match resolveArg s.options a with
  | none => .error .typeErr
  | some i =>
    match s.value with
    | .num v => (bitNum i).map fun m => { s with value := .num (jsOr v (some m)) }
    | .big v => .ok { s with value := .big (Int.lor v (bitBig i)) }

/-- Embeds `BitSet.prototype.delete` (`bitSet.ts` lines 120-132):
`value &= ~bit`. -/
def BitSetE.deleteOp (s : BitSetE) (a : String ⊕ Nat) : Except JsErr BitSetE :=
  match resolveArg s.options a with
  | none => .error .typeErr
  | some i =>
    match s.value with
    | .num v => (bitNum i).map fun m => { s with value := .num (jsAnd v (jsNot (some m))) }
    | .big v => .ok { s with value := .big (Int.land v (Int.lnot (bitBig i))) }

/-- Embeds `BitSet.prototype.toggle` (`bitSet.ts` lines 206-216):
`value ^= bit`. -/
def BitSetE.toggleOp (s : BitSetE) (a : String ⊕ Nat) : Except JsErr BitSetE :=
  match resolveArg s.options a with
  | none => .error .typeErr
  | some i =>
    match s.value with
    | .num v => (bitNum i).map fun m => { s with value := .num (jsXor v (some m)) }
    | .big v => .ok { s with value := .big (Int.xor v (bitBig i)) }

/-- Embeds `BitSet.prototype.has` (`bitSet.ts` lines 156-166):
`Boolean(value & bit)`. -/
def BitSetE.hasOp (s : BitSetE) (a : String ⊕ Nat) : Except JsErr Bool :=
  match resolveArg s.options a with
  | none => .error .typeErr
  | some i =>
    match s.value with
    | .num v => (bitNum i).map fun m => jsTruthyNum (jsAnd v (some m))
    | .big v => .ok (decide (Int.land v (bitBig i) ≠ 0))

/-- Embeds `BitSet.prototype.get` (`bitSet.ts` lines 139-149): the raw masked
sub-value `value & bit` in the container's kind. -/
def BitSetE.getOp (s : BitSetE) (a : String ⊕ Nat) : Except JsErr ScalarVal :=
  match resolveArg s.options a with
  | none => .error .typeErr
  | some i =>
    match s.value with
    | .num v => (bitNum i).map fun m => .num (jsAndI v (some m))
    | .big v => .ok (.big (Int.land v (bitBig i)))

/-- Embeds `BitSet.prototype.clear` (`bitSet.ts` lines 107-113): reads the
first registry key; only when that key exists (and is truthy) does it
assign a fresh zero, whose JS type is chosen by the type of the
registry *value* (always a number, hence number `0`). -/
def BitSetE.clearAll (s : BitSetE) : BitSetE :=
  match s.options.head? with
  | none => s
  | some p => if p.1 = "" then s else { s with value := .num (some 0) }

/-- Embeds `BitSet.prototype.write` (`bitSet.ts` lines 192-199): `set` applied
to each argument in sequence. -/
def BitSetE.writeOp (s : BitSetE) (args : List (String ⊕ Nat)) : Except JsErr BitSetE :=
  args.foldlM BitSetE.setOp s

/-- JS `WhiteSpace`/`LineTerminator` characters relevant to parsing
(the claims only exercise the common four). -/
def isJsSpace (c : Char) : Bool := c = ' ' ∨ c = '\t' ∨ c = '\n' ∨ c = '\r'

/-- The numeric value of `c` as a base-`radix` digit, for `radix ≤ 16`
(letter digits in either case), or `none`. -/
def digitVal? (radix : Nat) (c : Char) : Option Nat :=
  let v : Option Nat :=
    if '0' ≤ c ∧ c ≤ '9' then some (c.toNat - '0'.toNat)
    else if 'a' ≤ c ∧ c ≤ 'f' then some (c.toNat - 'a'.toNat + 10)
    else if 'A' ≤ c ∧ c ≤ 'F' then some (c.toNat - 'A'.toNat + 10)
    else none
  match v with
  | some d => if d < radix then some d else none
  | none => none

/-- Longest prefix of valid base-`radix` digits. -/
def takeDigits (radix : Nat) : List Char → List Nat
  | [] => []
  | c :: rest =>
    match digitVal? radix c with
    | some d => d :: takeDigits radix rest
    | none => []

/-- Value of a digit list, most significant first. -/
def digitsVal (radix : Nat) (ds : List Nat) : Nat :=
  ds.foldl (fun acc d => acc * radix + d) 0

/-- ECMAScript `parseInt(s, radix)` for `radix ∈ {2, 16}`: skip leading
whitespace, optional sign, optional `0x`/`0X` when `radix = 16`, then
the longest digit prefix; no digits gives `NaN` (never a throw). -/
def parseIntJS (radix : Nat) (s : String) : Option Int :=
  let cs := s.toList.dropWhile isJsSpace
  let sign : Int := match cs with
    | '-' :: _ => -1
    | _ => 1
  let cs := match cs with
    | '-' :: rest => rest
    | '+' :: rest => rest
    | _ => cs
  let cs :=
    if radix = 16 then
      match cs with
      | '0' :: 'x' :: rest => rest
      | '0' :: 'X' :: rest => rest
      | _ => cs
    else cs
  let ds := takeDigits radix cs
  if ds.isEmpty then none else some (sign * (digitsVal radix ds : Nat))

/-- All of `cs` read as base-`radix` digits (empty is invalid). -/
def allDigits? (radix : Nat) (cs : List Char) : Option Nat :=
  if cs.isEmpty then none
  else cs.foldlM (fun acc c => (digitVal? radix c).map fun d => acc * radix + d) 0

/-- ECMAScript `StringToBigInt` (`BigInt(string)`): trim whitespace at
both ends; empty means `0n`; a `0b`/`0o`/`0x` prefix selects the base
(no sign allowed); otherwise an optionally signed decimal digit string;
anything else is malformed (`none`, a thrown `SyntaxError`). -/
def strToBigInt? (s : String) : Option Int :=
  let cs := ((s.toList.dropWhile isJsSpace).reverse.dropWhile isJsSpace).reverse
  match cs with
  | [] => some 0
  | '0' :: 'b' :: rest => (allDigits? 2 rest).map fun n => (n : Int)
  | '0' :: 'B' :: rest => (allDigits? 2 rest).map fun n => (n : Int)
  | '0' :: 'o' :: rest => (allDigits? 8 rest).map fun n => (n : Int)
  | '0' :: 'O' :: rest => (allDigits? 8 rest).map fun n => (n : Int)
  | '0' :: 'x' :: rest => (allDigits? 16 rest).map fun n => (n : Int)
  | '0' :: 'X' :: rest => (allDigits? 16 rest).map fun n => (n : Int)
  | '-' :: rest => (allDigits? 10 rest).map fun n => -(n : Int)
  | '+' :: rest => (allDigits? 10 rest).map fun n => (n : Int)
  | _ => (allDigits? 10 cs).map fun n => (n : Int)

/-- Embeds `Instance(...).now(value)` (`bitSet.ts` lines 44-46, 81): the
constructor stores `value ?? 0`, so the kind is chosen by the type of
the initial value and defaults to number `0`. -/
def Instance.now (opts : Registry) (v : Option StoredVal) : BitSetE :=
  ⟨opts, v.getD (.num (some 0))⟩

/-- Embeds `Instance(...).fromBin` (`bitSet.ts` line 83):
`new BitSet(options, parseInt(value, 2))`.  `parseInt` never throws; a
malformed string stores `NaN`. -/
def Instance.fromBin (opts : Registry) (s : String) : Except JsErr BitSetE :=
  .ok ⟨opts, .num (parseIntJS 2 s)⟩

/-- Embeds `Instance(...).fromHex` (`bitSet.ts` line 82):
`new BitSet(options, parseInt(value, 16))`. -/
def Instance.fromHex (opts : Registry) (s : String) : Except JsErr BitSetE :=
  .ok ⟨opts, .num (parseIntJS 16 s)⟩

/-- Embeds `Instance(...).fromBinBigInt` (`bitSet.ts` line 85):
`new BitSet(options, BigInt(value))`; a malformed string makes
`BigInt` throw a `SyntaxError` naming the input. -/
def Instance.fromBinBigInt (opts : Registry) (s : String) : Except JsErr BitSetE :=
  match strToBigInt? s with
  | some v => .ok ⟨opts, .big v⟩
  | none => .error (.badFormat s)

/-- Embeds `Instance(...).fromHexBigInt` (`bitSet.ts` line 84):
`new BitSet(options, BigInt(value))`. -/
def Instance.fromHexBigInt (opts : Registry) (s : String) : Except JsErr BitSetE :=
  match strToBigInt? s with
  | some v => .ok ⟨opts, .big v⟩
  | none => .error (.badFormat s)

/-- The truthiness-style JS values accepted by the bulk constructors. -/
inductive JsVal
  | bool (b : Bool)
  | int (n : Int)
  | nan
  | str (s : String)
  | null
  | undef
  deriving DecidableEq

/-- JS truthiness: `false`, `0`, `NaN`, `''`, `null`, `undefined` are
falsy; everything else is truthy. -/
def JsVal.truthy : JsVal → Bool
  | .bool b => b
  | .int n => decide (n ≠ 0)
  | .nan => false
  | .str s => decide (s ≠ "")
  | .null => false
  | .undef => false

/-- The input mapping of the bulk constructors, in insertion order. -/
abbrev ObjMap := List (String × JsVal)

/-- JS property read `obj[k]`. -/
def ObjMap.lookup (o : ObjMap) (k : String) : Option JsVal :=
  (o.find? (fun p => p.1 = k)).map (fun p => p.2)

/-- Truthiness of `obj[k]`, a key absent from `obj` reading as
`undefined` (falsy). -/
def ObjMap.truthyAt (o : ObjMap) (k : String) : Bool :=
  ((o.lookup k).getD .undef).truthy

/-- Modelled from the spec: `Instance(...).from(obj)` is absent from the
sources (only its tests call it).  Spec §4.5: produce a narrow FlagSet
where each registered flag name present as a key in `obj` is set iff
that key's value is truthy; keys absent from the registry are ignored
without error.  Setting goes through the ordinary `set`. -/
def Instance.fromObj (opts : Registry) (obj : ObjMap) : Except JsErr BitSetE :=
  obj.foldlM
    (fun s p =>
      match opts.lookup p.1 with
      | none => .ok s
      | some _ => if p.2.truthy then s.setOp (.inl p.1) else .ok s)
    ⟨opts, .num (some 0)⟩

/-- Modelled from the spec: `Instance(...).fromBigInt(obj)` is absent
from the sources (only its tests call it).  Same as `fromObj` but the
produced FlagSet is wide (initial value `0n`). -/
def Instance.fromObjBigInt (opts : Registry) (obj : ObjMap) : Except JsErr BitSetE :=
  obj.foldlM
    (fun s p =>
      match opts.lookup p.1 with
      | none => .ok s
      | some _ => if p.2.truthy then s.setOp (.inl p.1) else .ok s)
    ⟨opts, .big 0⟩

/-- Number of binary digits of a natural number
(`n.toString(2).length` for `n ≥ 0`). -/
def natBinLen (n : Nat) : Nat := if n = 0 then 1 else n.log2 + 1

/-- The length of `this.#value.toString(2)`: negative scalars render as `'-'`
followed by the digits of the magnitude, and `NaN` renders as the
3-character string `'NaN'`. -/
def binStrLen : StoredVal → Nat
  | .num none => 3
  | .num (some x) => if x < 0 then 1 + natBinLen (-x).toNat else natBinLen x.toNat
  | .big x => if x < 0 then 1 + natBinLen (-x).toNat else natBinLen x.toNat

/-- Embeds `BitSet.prototype.entries(true)` (`bitSet.ts` lines 226-236), fully
iterated: one `[i, has(i)]` pair per `i < value.toString(2).length`;
an exception thrown by `has` aborts the iteration. -/
def BitSetE.entriesByIndex (s : BitSetE) : Except JsErr (List (Nat × Bool)) :=
  (List.range (binStrLen s.value)).mapM fun i => (s.hasOp (.inr i)).map fun b => (i, b)

/-- The resolved bit index of a `write`/`set` argument (`0` only as a
junk default for arguments that do not resolve). -/
def resolveIdx (opts : Registry) (a : String ⊕ Nat) : Nat :=
  (resolveArg opts a).getD 0

/-- Whether the stored value is the narrow (number) kind. -/
def BitSetE.isNarrow (s : BitSetE) : Bool :=
  match s.value with
  | .num _ => true
  | .big _ => false

/-- A `write` argument is valid for `s` when it resolves in the
registry (or is a raw index) and, in the narrow kind, its index is at
most 31. -/
def validArg (s : BitSetE) (a : String ⊕ Nat) : Prop :=
  (resolveArg s.options a).isSome = true ∧
    (s.isNarrow = true → resolveIdx s.options a ≤ 31)

instance (s : BitSetE) (a : String ⊕ Nat) : Decidable (validArg s a) := by
  unfold validArg
  infer_instance

/-- The effect of a successful `set` at resolved index `i`. -/
def setPure (i : Nat) (s : BitSetE) : BitSetE :=
  match s.value with
  | .num v => { s with value := .num (jsOr v (some (ofUint32 (2 ^ i)))) }
  | .big v => { s with value := .big (Int.lor v (bitBig i)) }

/-- The bit indices of the registered, truthy keys of `obj`, in
iteration order. -/
def objMasks (opts : Registry) (obj : ObjMap) : List Nat :=
  obj.filterMap fun p => if p.2.truthy then opts.lookup p.1 else none

/-- OR-fold of the single-bit masks of a list of indices. -/
def maskOrN (l : List Nat) : Nat := l.foldl (fun u i => u ||| 2 ^ i) 0

/-- Registry of the reference `from(obj)` scenario (spec §8). -/
def scOptsNarrow : Registry :=
  [("foo", 1), ("bar", 2), ("baz", 31), ("v1", 11), ("v2", 12), ("v3", 13),
    ("v4", 14), ("v5", 15), ("v6", 15)]

/-- Registry of the reference `fromBigInt(obj)` scenario. -/
def scOptsWide : Registry :=
  [("foo", 1), ("bar", 2), ("baz", 31), ("v1", 111), ("v2", 112), ("v3", 113),
    ("v4", 114), ("v5", 115), ("v6", 115)]

/-- Input object of the reference bulk-construction scenarios. -/
def scObj : ObjMap :=
  [("bar", .bool true), ("baz", .bool true), ("v1", .int 1), ("v2", .int 0),
    ("v3", .str ""), ("v4", .nan), ("v5", .undef), ("v6", .null)]

/-! ## Arithmetic helper lemmas -/

theorem toUint32N_lt (x : Int) : toUint32N x < 2 ^ 32 := by
  simp only [toUint32N]
  omega

theorem numToUint32_lt (v : JsNum) : numToUint32 v < 2 ^ 32 := by
  cases v with
  | none => simp [numToUint32]
  | some x => exact toUint32N_lt x

theorem toUint32N_ofUint32 (u : Nat) (h : u < 2 ^ 32) : toUint32N (ofUint32 u) = u := by
  simp only [toUint32N, ofUint32]
  split <;> omega

theorem numToUint32_some_ofUint32 (u : Nat) (h : u < 2 ^ 32) :
    numToUint32 (some (ofUint32 u)) = u :=
  toUint32N_ofUint32 u h

theorem ofUint32_eq_zero_iff (u : Nat) (h : u < 2 ^ 32) : ofUint32 u = 0 ↔ u = 0 := by
  simp only [ofUint32]
  split <;> omega

theorem toUint32N_coe (u : Nat) (h : u < 2 ^ 32) : toUint32N (u : Int) = u := by
  simp only [toUint32N]
  omega

/-! ## C1 -/

/-- C1: `BitSet.bit` with a number argument fails (with the spec's
RangeError kind) for every integer `n > 31`; for `0 ≤ n ≤ 31` it
returns `1` left-shifted by `n` as a 32-bit value, i.e. the signed
reading of the pattern `2 ^ n` (its unsigned 32-bit pattern is exactly
`2 ^ n`). -/
theorem bit_narrow_range (n : Int) :
    (31 < n → bitNum n = .error .bitRange) ∧
    (0 ≤ n → n ≤ 31 →
      bitNum n = .ok (ofUint32 (2 ^ n.toNat)) ∧
      toUint32N (ofUint32 (2 ^ n.toNat)) = 2 ^ n.toNat) := by
  constructor
  · intro h
    simp [bitNum, h]
  · intro h0 h31
    have hpow : 2 ^ n.toNat < 2 ^ 32 := Nat.pow_lt_pow_right (by norm_num) (by omega)
    constructor
    · have hn : toUint32N n = n.toNat := by simp only [toUint32N]; omega
      have hmod : n.toNat % 32 = n.toNat := Nat.mod_eq_of_lt (by omega)
      simp [bitNum, not_lt.mpr h31, hn, hmod]
    · exact toUint32N_ofUint32 _ hpow

/-- C1 witness: `bit(32)` throws, `bit(31)` returns the signed 32-bit
value `-2147483648` whose unsigned pattern is `2 ^ 31`. -/
theorem bit_narrow_range_witness :
    bitNum 32 = .error .bitRange ∧ bitNum 31 = .ok (-2147483648) ∧
    toUint32N (-2147483648) = 2 ^ 31 := by
  refine ⟨(bit_narrow_range 32).1 (by norm_num), ?_, by decide⟩
  have h := ((bit_narrow_range 31).2 (by norm_num) (by norm_num)).1
  rw [h]
  rfl

/-! ## C2 -/

/-- C2: every mutator and accessor of a `BitSet`, given a flag name
absent from the registry, fails (the spec's UnknownFlagError kind,
realized as the `TypeError` the undefined lookup produces inside the
mask computation) and, since the exception is raised before any
assignment to `#value`, the stored value is left unchanged — the
operation returns no updated FlagSet. -/
theorem unknown_flag_fails (s : BitSetE) (name : String)
    (h : s.options.lookup name = none) :
    s.setOp (.inl name) = .error .typeErr ∧
    s.deleteOp (.inl name) = .error .typeErr ∧
    s.toggleOp (.inl name) = .error .typeErr ∧
    s.hasOp (.inl name) = .error .typeErr ∧
    s.getOp (.inl name) = .error .typeErr := by
  have hr : resolveArg s.options (.inl name) = none := h
  exact ⟨by simp [BitSetE.setOp, hr], by simp [BitSetE.deleteOp, hr],
    by simp [BitSetE.toggleOp, hr], by simp [BitSetE.hasOp, hr],
    by simp [BitSetE.getOp, hr]⟩

/-- C2 witness: on the registry `{a: 0}` the name `"b"` is unknown and
all five operations fail, for a narrow and for a wide instance. -/
theorem unknown_flag_fails_witness :
    Registry.lookup [("a", 0)] "b" = none ∧
    (BitSetE.mk [("a", 0)] (.num (some 3))).setOp (.inl "b") = .error .typeErr ∧
    (BitSetE.mk [("a", 0)] (.num (some 3))).hasOp (.inl "b") = .error .typeErr ∧
    (BitSetE.mk [("a", 0)] (.big 3)).deleteOp (.inl "b") = .error .typeErr ∧
    (BitSetE.mk [("a", 0)] (.big 3)).toggleOp (.inl "b") = .error .typeErr ∧
    (BitSetE.mk [("a", 0)] (.big 3)).getOp (.inl "b") = .error .typeErr := by
  refine ⟨by decide, ?_, ?_, ?_, ?_, ?_⟩
  · exact (unknown_flag_fails (BitSetE.mk [("a", 0)] (.num (some 3))) "b" (by decide)).1
  · exact (unknown_flag_fails (BitSetE.mk [("a", 0)] (.num (some 3))) "b" (by decide)).2.2.2.1
  · exact (unknown_flag_fails (BitSetE.mk [("a", 0)] (.big 3)) "b" (by decide)).2.1
  · exact (unknown_flag_fails (BitSetE.mk [("a", 0)] (.big 3)) "b" (by decide)).2.2.1
  · exact (unknown_flag_fails (BitSetE.mk [("a", 0)] (.big 3)) "b" (by decide)).2.2.2.2

/-! ## C4 -/

/-- C4 (code bug): the no-argument `clear()` does **not** reset the
value to zero of the same kind in general.  With an empty registry,
`Object.keys(this.options)[0]` is `undefined` and the guarded
assignment is skipped, so a narrow instance keeps its value `5`; and on
a wide instance with a number-valued registry, `clear()` assigns the
**number** `0`, silently changing the instance's kind from wide to
narrow. -/
theorem clear_empty_registry_and_kind_bug :
    (BitSetE.mk [] (.num (some 5))).clearAll = BitSetE.mk [] (.num (some 5)) ∧
    (BitSetE.mk [] (.num (some 5))).clearAll.valueAcc = .num 5 ∧
    (BitSetE.mk [("a", 0)] (.big 7)).clearAll = BitSetE.mk [("a", 0)] (.num (some 0)) ∧
    (BitSetE.mk [("a", 0)] (.big 7)).clearAll.valueAcc = .num 0 := by
  refine ⟨rfl, by decide, ?_, by decide⟩
  decide

/-! ## C5 -/

/-- C5: the `value` getter of every narrow-kind `BitSet` — hence after
any sequence of operations, all of which only replace the stored
number — reports a non-negative integer in `[0, 2^32 - 1]`, because it
applies `>>> 0` (`ToUint32`) to the stored number, even when the stored
signed representation is negative. -/
theorem value_narrow_unsigned_range (opts : Registry) (v : JsNum) :
    ∃ k : Int, (BitSetE.mk opts (.num v)).valueAcc = .num k ∧ 0 ≤ k ∧ k ≤ 2 ^ 32 - 1 := by
  refine ⟨(numToUint32 v : Int), rfl, by positivity, ?_⟩
  have h := numToUint32_lt v
  omega

/-- C5 witness: setting bit 31 on a fresh narrow instance stores the
negative number `-2147483648`, yet `value` reports `2147483648`. -/
theorem value_narrow_unsigned_range_witness :
    (BitSetE.mk [] (.num (some 0))).setOp (.inr 31) =
      .ok (BitSetE.mk [] (.num (some (-2147483648)))) ∧
    (BitSetE.mk [] (.num (some (-2147483648)))).valueAcc = .num 2147483648 ∧
    ∃ k : Int, (BitSetE.mk [] (.num (some (-2147483648)))).valueAcc = .num k ∧
      0 ≤ k ∧ k ≤ 2 ^ 32 - 1 :=
  ⟨by rfl, by decide, value_narrow_unsigned_range [] (some (-2147483648))⟩

/-! ## Bitwise helper lemmas -/

theorem pow_lt_two_pow_32 {n : Nat} (h : n ≤ 31) : 2 ^ n < 2 ^ 32 :=
  Nat.pow_lt_pow_right (by norm_num) (by omega)

theorem bitNum_nat {n : Nat} (h : n ≤ 31) : bitNum (n : Int) = .ok (ofUint32 (2 ^ n)) := by
  have h1 : ¬(31 < (n : Int)) := by exact_mod_cast not_lt.mpr h
  have h2 : toUint32N (n : Int) = n := toUint32N_coe n (by omega)
  have h3 : n % 32 = n := Nat.mod_eq_of_lt (by omega)
  simp [bitNum, h1, h2, h3]

theorem nat_or_and_self (u m : Nat) : (u ||| m) &&& m = m := by
  apply Nat.eq_of_testBit_eq
  intro i
  simp only [Nat.testBit_and, Nat.testBit_or]
  cases u.testBit i <;> cases m.testBit i <;> rfl

theorem nat_clear_bit_zero (u n : Nat) (hn : n < 32) :
    (u &&& (2 ^ n ^^^ (2 ^ 32 - 1))) &&& 2 ^ n = 0 := by
  apply Nat.eq_of_testBit_eq
  intro i
  simp only [Nat.testBit_and, Nat.testBit_xor, Nat.testBit_two_pow_sub_one,
    Nat.zero_testBit, Nat.testBit_two_pow]
  by_cases h : n = i
  · subst h
    simp [hn]
  · simp [h]

theorem int_testBit_ofNat (a : Nat) (n : Nat) :
    Int.testBit ((a : Nat) : Int) n = Nat.testBit a n := rfl

theorem int_ofNat_eq_zero (n : Nat) : Int.ofNat n = 0 ↔ n = 0 := by
  constructor
  · intro h
    exact Int.ofNat.inj h
  · intro h
    subst h
    rfl

theorem int_land_two_pow_eq_zero_iff (x : Int) (n : Nat) :
    Int.land x (bitBig n) = 0 ↔ x.testBit n = false := by
  cases x with
  | ofNat a =>
    show Int.land (Int.ofNat a) (Int.ofNat (2 ^ n)) = 0 ↔ _
    have hl : Int.land (Int.ofNat a) (Int.ofNat (2 ^ n)) = Int.ofNat (a &&& 2 ^ n) := rfl
    rw [hl]
    have ht : Int.testBit (Int.ofNat a) n = Nat.testBit a n := rfl
    rw [ht, int_ofNat_eq_zero, Nat.and_two_pow]
    have hp : 0 < 2 ^ n := Nat.pow_pos (by norm_num)
    cases h : a.testBit n
    · simp
    · simp
  | negSucc a =>
    show Int.land (Int.negSucc a) (Int.ofNat (2 ^ n)) = 0 ↔ _
    have hl : Int.land (Int.negSucc a) (Int.ofNat (2 ^ n)) = Int.ofNat (Nat.ldiff (2 ^ n) a) := rfl
    have ht : Int.testBit (Int.negSucc a) n = !(Nat.testBit a n) := rfl
    rw [hl, ht, int_ofNat_eq_zero]
    constructor
    · intro h
      have := congrArg (fun t => Nat.testBit t n) h
      simp only [Nat.testBit_ldiff, Nat.testBit_two_pow_self, Nat.zero_testBit,
        Bool.true_and] at this
      simp [this]
    · intro h
      have ha : a.testBit n = true := by
        cases hb : a.testBit n
        · rw [hb] at h; simp at h
        · rfl
      apply Nat.eq_of_testBit_eq
      intro i
      simp only [Nat.testBit_ldiff, Nat.zero_testBit, Nat.testBit_two_pow]
      by_cases hi : n = i
      · subst hi; simp [ha]
      · simp [hi]

theorem int_xor_xor_cancel (v : Int) (k : Nat) :
    Int.xor (Int.xor v ((k : Nat) : Int)) ((k : Nat) : Int) = v := by
  cases v with
  | ofNat a =>
    show Int.xor (Int.xor (Int.ofNat a) (Int.ofNat k)) (Int.ofNat k) = Int.ofNat a
    have h1 : Int.xor (Int.ofNat a) (Int.ofNat k) = Int.ofNat (a ^^^ k) := rfl
    rw [h1]
    have h2 : Int.xor (Int.ofNat (a ^^^ k)) (Int.ofNat k) = Int.ofNat ((a ^^^ k) ^^^ k) := rfl
    rw [h2, Nat.xor_assoc, Nat.xor_self, Nat.xor_zero]
  | negSucc a =>
    show Int.xor (Int.xor (Int.negSucc a) (Int.ofNat k)) (Int.ofNat k) = Int.negSucc a
    have h1 : Int.xor (Int.negSucc a) (Int.ofNat k) = Int.negSucc (a ^^^ k) := rfl
    rw [h1]
    have h2 : Int.xor (Int.negSucc (a ^^^ k)) (Int.ofNat k) = Int.negSucc ((a ^^^ k) ^^^ k) := rfl
    rw [h2, Nat.xor_assoc, Nat.xor_self, Nat.xor_zero]

/-! ## C9 -/

/-- C9: for every valid bit position (`n ≤ 31` narrow, any `n` wide)
and every stored value: `set(n)` then `has(n)` yields `true`; a
subsequent `delete(n)` makes `has(n)` yield `false`; and two `toggle(n)`
in a row restore the FlagSet's observable `value`. -/
theorem set_has_delete_toggle_laws (opts : Registry) :
    (∀ (v : JsNum) (n : Nat), n ≤ 31 →
      ∃ s1 s2 t1 t2,
        (BitSetE.mk opts (.num v)).setOp (.inr n) = .ok s1 ∧
        s1.hasOp (.inr n) = .ok true ∧
        s1.deleteOp (.inr n) = .ok s2 ∧
        s2.hasOp (.inr n) = .ok false ∧
        (BitSetE.mk opts (.num v)).toggleOp (.inr n) = .ok t1 ∧
        t1.toggleOp (.inr n) = .ok t2 ∧
        t2.valueAcc = (BitSetE.mk opts (.num v)).valueAcc) ∧
    (∀ (v : Int) (n : Nat),
      ∃ s1 s2 t1 t2,
        (BitSetE.mk opts (.big v)).setOp (.inr n) = .ok s1 ∧
        s1.hasOp (.inr n) = .ok true ∧
        s1.deleteOp (.inr n) = .ok s2 ∧
        s2.hasOp (.inr n) = .ok false ∧
        (BitSetE.mk opts (.big v)).toggleOp (.inr n) = .ok t1 ∧
        t1.toggleOp (.inr n) = .ok t2 ∧
        t2.valueAcc = (BitSetE.mk opts (.big v)).valueAcc) := by
  constructor
  · intro v n hn
    have hu : numToUint32 v < 2 ^ 32 := numToUint32_lt v
    have hm : (2 : Nat) ^ n < 2 ^ 32 := pow_lt_two_pow_32 hn
    have hones : (2 ^ 32 - 1 : Nat) < 2 ^ 32 := by omega
    have hor : numToUint32 v ||| 2 ^ n < 2 ^ 32 := Nat.or_lt_two_pow hu hm
    have hxn : (2 ^ n ^^^ (2 ^ 32 - 1) : Nat) < 2 ^ 32 := Nat.xor_lt_two_pow hm hones
    have hux : numToUint32 v ^^^ 2 ^ n < 2 ^ 32 := Nat.xor_lt_two_pow hu hm
    have hmne : (2 ^ n : Nat) ≠ 0 := (Nat.pow_pos (by norm_num)).ne'
    have hbitne : ofUint32 (2 ^ n) ≠ 0 := by
      rw [Ne, ofUint32_eq_zero_iff _ hm]
      exact hmne
    have hmaskOk : bitNum (n : Int) = .ok (ofUint32 (2 ^ n)) := bitNum_nat hn
    have hor_eq : jsOr v (some (ofUint32 (2 ^ n))) =
        some (ofUint32 (numToUint32 v ||| 2 ^ n)) := by
      simp only [jsOr, numToUint32_some_ofUint32 _ hm]
    have hnot_eq : jsNot (some (ofUint32 (2 ^ n))) =
        some (ofUint32 (2 ^ n ^^^ (2 ^ 32 - 1))) := by
      simp only [jsNot, numToUint32_some_ofUint32 _ hm]
    have hand1 : jsAnd (some (ofUint32 (numToUint32 v ||| 2 ^ n))) (some (ofUint32 (2 ^ n))) =
        some (ofUint32 (2 ^ n)) := by
      simp only [jsAnd, jsAndI, numToUint32_some_ofUint32 _ hor,
        numToUint32_some_ofUint32 _ hm, nat_or_and_self]
    have hand2 : jsAnd (some (ofUint32 (numToUint32 v ||| 2 ^ n)))
        (jsNot (some (ofUint32 (2 ^ n)))) =
        some (ofUint32 ((numToUint32 v ||| 2 ^ n) &&& (2 ^ n ^^^ (2 ^ 32 - 1)))) := by
      rw [hnot_eq]
      simp only [jsAnd, jsAndI, numToUint32_some_ofUint32 _ hor,
        numToUint32_some_ofUint32 _ hxn]
    have hand3 : jsAnd (some (ofUint32 ((numToUint32 v ||| 2 ^ n) &&& (2 ^ n ^^^ (2 ^ 32 - 1)))))
        (some (ofUint32 (2 ^ n))) = some 0 := by
      simp only [jsAnd, jsAndI, numToUint32_some_ofUint32 _ (Nat.and_lt_two_pow _ hxn),
        numToUint32_some_ofUint32 _ hm,
        nat_clear_bit_zero (numToUint32 v ||| 2 ^ n) n (by omega)]
      rfl
    have hxor1 : jsXor v (some (ofUint32 (2 ^ n))) =
        some (ofUint32 (numToUint32 v ^^^ 2 ^ n)) := by
      simp only [jsXor, numToUint32_some_ofUint32 _ hm]
    have hxor2 : jsXor (some (ofUint32 (numToUint32 v ^^^ 2 ^ n))) (some (ofUint32 (2 ^ n))) =
        some (ofUint32 (numToUint32 v)) := by
      simp only [jsXor, numToUint32_some_ofUint32 _ hux, numToUint32_some_ofUint32 _ hm,
        Nat.xor_assoc, Nat.xor_self, Nat.xor_zero]
    refine ⟨⟨opts, .num (some (ofUint32 (numToUint32 v ||| 2 ^ n)))⟩,
      ⟨opts, .num (some (ofUint32 ((numToUint32 v ||| 2 ^ n) &&& (2 ^ n ^^^ (2 ^ 32 - 1)))))⟩,
      ⟨opts, .num (some (ofUint32 (numToUint32 v ^^^ 2 ^ n)))⟩,
      ⟨opts, .num (some (ofUint32 (numToUint32 v)))⟩,
      ?_, ?_, ?_, ?_, ?_, ?_, ?_⟩
    · simp only [BitSetE.setOp, resolveArg, hmaskOk, Except.map, hor_eq]
    · simp only [BitSetE.hasOp, resolveArg, hmaskOk, Except.map, hand1, jsTruthyNum]
      simp [hbitne]
    · simp only [BitSetE.deleteOp, resolveArg, hmaskOk, Except.map, hand2]
    · simp only [BitSetE.hasOp, resolveArg, hmaskOk, Except.map, hand3, jsTruthyNum]
      simp
    · simp only [BitSetE.toggleOp, resolveArg, hmaskOk, Except.map, hxor1]
    · simp only [BitSetE.toggleOp, resolveArg, hmaskOk, Except.map, hxor2]
    · simp only [BitSetE.valueAcc, numToUint32_some_ofUint32 _ hu]
  · intro v n
    have htm : Int.testBit (bitBig n) n = true := by
      simp only [bitBig, int_testBit_ofNat]
      exact Nat.testBit_two_pow_self
    refine ⟨⟨opts, .big (Int.lor v (bitBig n))⟩,
      ⟨opts, .big (Int.land (Int.lor v (bitBig n)) (Int.lnot (bitBig n)))⟩,
      ⟨opts, .big (Int.xor v (bitBig n))⟩,
      ⟨opts, .big (Int.xor (Int.xor v (bitBig n)) (bitBig n))⟩,
      rfl, ?_, rfl, ?_, rfl, rfl, ?_⟩
    · have h1 : Int.testBit (Int.lor v (bitBig n)) n = true := by
        rw [Int.testBit_lor, htm]
        simp
      have h2 : Int.land (Int.lor v (bitBig n)) (bitBig n) ≠ 0 := by
        intro hc
        rw [int_land_two_pow_eq_zero_iff] at hc
        rw [h1] at hc
        cases hc
      simp [BitSetE.hasOp, resolveArg, h2]
    · have h1 : Int.testBit (Int.land (Int.lor v (bitBig n)) (Int.lnot (bitBig n))) n = false := by
        rw [Int.testBit_land, Int.testBit_lnot, htm]
        simp
      have h2 : Int.land (Int.land (Int.lor v (bitBig n)) (Int.lnot (bitBig n))) (bitBig n) = 0 :=
        (int_land_two_pow_eq_zero_iff _ n).mpr h1
      simp [BitSetE.hasOp, resolveArg, h2]
    · have h1 : Int.xor (Int.xor v (bitBig n)) (bitBig n) = v := int_xor_xor_cancel v (2 ^ n)
      simp [BitSetE.valueAcc, h1]

/-- C9 witness: the laws at the narrow position 31 from value 0 and at
the wide position 100 from value 0n. -/
theorem set_has_delete_toggle_laws_witness :
    (∃ s1 s2 t1 t2,
      (BitSetE.mk [] (.num (some 0))).setOp (.inr 31) = .ok s1 ∧
      s1.hasOp (.inr 31) = .ok true ∧
      s1.deleteOp (.inr 31) = .ok s2 ∧
      s2.hasOp (.inr 31) = .ok false ∧
      (BitSetE.mk [] (.num (some 0))).toggleOp (.inr 31) = .ok t1 ∧
      t1.toggleOp (.inr 31) = .ok t2 ∧
      t2.valueAcc = (BitSetE.mk [] (.num (some 0))).valueAcc) ∧
    (∃ s1 s2 t1 t2,
      (BitSetE.mk [] (.big 0)).setOp (.inr 100) = .ok s1 ∧
      s1.hasOp (.inr 100) = .ok true ∧
      s1.deleteOp (.inr 100) = .ok s2 ∧
      s2.hasOp (.inr 100) = .ok false ∧
      (BitSetE.mk [] (.big 0)).toggleOp (.inr 100) = .ok t1 ∧
      t1.toggleOp (.inr 100) = .ok t2 ∧
      t2.valueAcc = (BitSetE.mk [] (.big 0)).valueAcc) :=
  ⟨(set_has_delete_toggle_laws []).1 (some 0) 31 (by norm_num),
   (set_has_delete_toggle_laws []).2 0 100⟩

/-! ## C8 -/

theorem setPure_options (i : Nat) (s : BitSetE) : (setPure i s).options = s.options := by
  cases hv : s.value <;> simp [setPure, hv]

theorem setPure_isNarrow (i : Nat) (s : BitSetE) : (setPure i s).isNarrow = s.isNarrow := by
  cases hv : s.value <;> simp [setPure, BitSetE.isNarrow, hv]

theorem validArg_setPure (i : Nat) (s : BitSetE) (a : String ⊕ Nat) :
    validArg (setPure i s) a ↔ validArg s a := by
  simp [validArg, setPure_options, setPure_isNarrow, resolveIdx]

theorem setOp_ok_of_valid (s : BitSetE) (a : String ⊕ Nat) (h : validArg s a) :
    s.setOp a = .ok (setPure (resolveIdx s.options a) s) := by
  obtain ⟨h1, h2⟩ := h
  cases hres : resolveArg s.options a with
  | none => rw [hres] at h1; cases h1
  | some i =>
    have hidx : resolveIdx s.options a = i := by simp [resolveIdx, hres]
    rw [hidx]
    cases hv : s.value with
    | num v =>
      have hnarrow : s.isNarrow = true := by simp [BitSetE.isNarrow, hv]
      have hle : i ≤ 31 := by
        have := h2 hnarrow
        rwa [hidx] at this
      simp only [BitSetE.setOp, hres, hv, bitNum_nat hle, Except.map, setPure]
    | big v =>
      simp only [BitSetE.setOp, hres, hv, setPure]

theorem writeOp_eq_foldl :
    ∀ (args : List (String ⊕ Nat)) (s : BitSetE), (∀ a ∈ args, validArg s a) →
      s.writeOp args = .ok (args.foldl (fun t a => setPure (resolveIdx t.options a) t) s)
  | [], s, _ => rfl
  | a :: rest, s, hv => by
    have hva : validArg s a := hv a (by simp)
    have hstep := setOp_ok_of_valid s a hva
    have hrest : ∀ b ∈ rest, validArg (setPure (resolveIdx s.options a) s) b := by
      intro b hb
      rw [validArg_setPure]
      exact hv b (by simp [hb])
    have ih := writeOp_eq_foldl rest (setPure (resolveIdx s.options a) s) hrest
    simp only [BitSetE.writeOp, List.foldlM_cons, hstep, List.foldl_cons]
    simpa [BitSetE.writeOp] using ih

theorem nat_or_right_comm (u a b : Nat) : (u ||| a) ||| b = (u ||| b) ||| a := by
  rw [Nat.or_assoc, Nat.or_assoc, Nat.or_comm a b]

theorem int_lor_right_comm (v : Int) (a b : Nat) :
    Int.lor (Int.lor v ((a : Nat) : Int)) ((b : Nat) : Int) =
      Int.lor (Int.lor v ((b : Nat) : Int)) ((a : Nat) : Int) := by
  cases v with
  | ofNat x =>
    show Int.lor (Int.lor (Int.ofNat x) (Int.ofNat a)) (Int.ofNat b) =
      Int.lor (Int.lor (Int.ofNat x) (Int.ofNat b)) (Int.ofNat a)
    have h1 : Int.lor (Int.ofNat x) (Int.ofNat a) = Int.ofNat (x ||| a) := rfl
    have h2 : Int.lor (Int.ofNat x) (Int.ofNat b) = Int.ofNat (x ||| b) := rfl
    have h3 : Int.lor (Int.ofNat (x ||| a)) (Int.ofNat b) = Int.ofNat ((x ||| a) ||| b) := rfl
    have h4 : Int.lor (Int.ofNat (x ||| b)) (Int.ofNat a) = Int.ofNat ((x ||| b) ||| a) := rfl
    rw [h1, h2, h3, h4, nat_or_right_comm]
  | negSucc x =>
    show Int.lor (Int.lor (Int.negSucc x) (Int.ofNat a)) (Int.ofNat b) =
      Int.lor (Int.lor (Int.negSucc x) (Int.ofNat b)) (Int.ofNat a)
    have h1 : Int.lor (Int.negSucc x) (Int.ofNat a) = Int.negSucc (Nat.ldiff x a) := rfl
    have h2 : Int.lor (Int.negSucc x) (Int.ofNat b) = Int.negSucc (Nat.ldiff x b) := rfl
    have h3 : Int.lor (Int.negSucc (Nat.ldiff x a)) (Int.ofNat b) =
      Int.negSucc (Nat.ldiff (Nat.ldiff x a) b) := rfl
    have h4 : Int.lor (Int.negSucc (Nat.ldiff x b)) (Int.ofNat a) =
      Int.negSucc (Nat.ldiff (Nat.ldiff x b) a) := rfl
    rw [h1, h2, h3, h4]
    congr 1
    apply Nat.eq_of_testBit_eq
    intro i
    simp only [Nat.testBit_ldiff]
    cases x.testBit i <;> cases a.testBit i <;> cases b.testBit i <;> rfl

theorem setPure_comm (i j : Nat) (s : BitSetE)
    (h : s.isNarrow = true → i ≤ 31 ∧ j ≤ 31) :
    setPure j (setPure i s) = setPure i (setPure j s) := by
  cases hv : s.value with
  | num v =>
    obtain ⟨hi, hj⟩ := h (by simp [BitSetE.isNarrow, hv])
    have hmi : (2 : Nat) ^ i < 2 ^ 32 := pow_lt_two_pow_32 hi
    have hmj : (2 : Nat) ^ j < 2 ^ 32 := pow_lt_two_pow_32 hj
    have hu : numToUint32 v < 2 ^ 32 := numToUint32_lt v
    simp only [setPure, hv, jsOr, numToUint32_some_ofUint32 _ hmi,
      numToUint32_some_ofUint32 _ hmj,
      numToUint32_some_ofUint32 _ (Nat.or_lt_two_pow hu hmi),
      numToUint32_some_ofUint32 _ (Nat.or_lt_two_pow hu hmj),
      nat_or_right_comm]
  | big v =>
    simp only [setPure, hv, bitBig, int_lor_right_comm]

theorem foldl_setPure_perm {l l' : List Nat} (hp : l.Perm l') :
    ∀ (s : BitSetE), (s.isNarrow = true → ∀ i ∈ l, i ≤ 31) →
      l.foldl (fun t i => setPure i t) s = l'.foldl (fun t i => setPure i t) s := by
  induction hp with
  | nil => intro s _; rfl
  | cons x h ih =>
    intro s hv
    simp only [List.foldl_cons]
    refine ih (setPure x s) ?_
    intro hn i hi
    rw [setPure_isNarrow] at hn
    exact hv hn i (by simp [hi])
  | swap x y l =>
    intro s hv
    simp only [List.foldl_cons]
    rw [setPure_comm y x s]
    intro hn
    exact ⟨hv hn y (by simp), hv hn x (by simp)⟩
  | trans h₁ h₂ ih₁ ih₂ =>
    intro s hv
    refine (ih₁ s hv).trans (ih₂ s ?_)
    intro hn i hi
    exact hv hn i (h₁.mem_iff.mpr hi)

/-- C8: with valid arguments, `write(...)` is `set` applied to each
argument in sequence (its fold), the result is the same for every
permutation of the arguments (OR is commutative and associative), and
`write()` with no arguments leaves the FlagSet unchanged. -/
theorem write_or_fold_comm (s : BitSetE) (args args' : List (String ⊕ Nat))
    (hperm : args.Perm args') (hvalid : ∀ a ∈ args, validArg s a) :
    s.writeOp [] = .ok s ∧
    s.writeOp args = args.foldlM BitSetE.setOp s ∧
    ∃ t, s.writeOp args = .ok t ∧ s.writeOp args' = .ok t := by
  refine ⟨rfl, rfl, ?_⟩
  have hvalid' : ∀ a ∈ args', validArg s a := fun a ha =>
    hvalid a (hperm.mem_iff.mpr ha)
  have h1 := writeOp_eq_foldl args s hvalid
  have h2 := writeOp_eq_foldl args' s hvalid'
  refine ⟨args.foldl (fun t a => setPure (resolveIdx t.options a) t) s, h1, ?_⟩
  rw [h2]
  have hopt : ∀ (l : List (String ⊕ Nat)) (t : BitSetE), t.options = s.options →
      l.foldl (fun t a => setPure (resolveIdx t.options a) t) t =
        (l.map (resolveIdx s.options)).foldl (fun t i => setPure i t) t := by
    intro l
    induction l with
    | nil => intro t _; rfl
    | cons a rest ih =>
      intro t ht
      simp only [List.foldl_cons, List.map_cons, ht]
      exact ih _ (by rw [setPure_options, ht])
  rw [hopt args s rfl, hopt args' s rfl]
  have hcond : (BitSetE.mk s.options s.value).isNarrow = true →
      ∀ i ∈ args.map (resolveIdx s.options), i ≤ 31 := by
    intro hn i hi
    obtain ⟨a, ha, rfl⟩ := List.mem_map.mp hi
    exact (hvalid a ha).2 hn
  exact congrArg Except.ok (foldl_setPure_perm (hperm.map (resolveIdx s.options)) s
    (by intro hn i hi
        obtain ⟨a, ha, rfl⟩ := List.mem_map.mp hi
        exact (hvalid a ha).2 hn)).symm

/-- C8 witness: on registry `{a:0, b:1}` with value 0, writing
`['a', 3]` and `[3, 'a']` gives the same FlagSet, `write` equals its
`set`-fold, and `write()` is a no-op. -/
theorem write_or_fold_comm_witness :
    (BitSetE.mk [("a", 0), ("b", 1)] (.num (some 0))).writeOp [] =
      .ok (BitSetE.mk [("a", 0), ("b", 1)] (.num (some 0))) ∧
    (BitSetE.mk [("a", 0), ("b", 1)] (.num (some 0))).writeOp [.inl "a", .inr 3] =
      [Sum.inl "a", Sum.inr 3].foldlM BitSetE.setOp
        (BitSetE.mk [("a", 0), ("b", 1)] (.num (some 0))) ∧
    ∃ t, (BitSetE.mk [("a", 0), ("b", 1)] (.num (some 0))).writeOp [.inl "a", .inr 3] = .ok t ∧
      (BitSetE.mk [("a", 0), ("b", 1)] (.num (some 0))).writeOp [.inr 3, .inl "a"] = .ok t :=
  write_or_fold_comm (BitSetE.mk [("a", 0), ("b", 1)] (.num (some 0)))
    [.inl "a", .inr 3] [.inr 3, .inl "a"] (by decide)
    (by
      intro a ha
      rcases List.mem_cons.mp ha with rfl | ha2
      · decide
      · rcases List.mem_cons.mp ha2 with rfl | h3
        · decide
        · cases h3)

/-! ## `entries(true)` helpers (C7, C10) -/

theorem mapM_ok_of_forall {α β : Type} (f : α → Except JsErr β) (g : α → β) :
    ∀ (l : List α), (∀ a ∈ l, f a = .ok (g a)) → l.mapM f = .ok (l.map g)
  | [], _ => rfl
  | a :: rest, h => by
    have h1 := h a (by simp)
    have ih := mapM_ok_of_forall f g rest (fun b hb => h b (by simp [hb]))
    simp only [List.mapM_cons, h1, ih, List.map_cons]
    rfl

theorem mapM_stops_at_error {α β : Type} (f : α → Except JsErr β) (g : α → β)
    (e : JsErr) : ∀ (l₁ : List α) (a : α) (l₂ : List α),
      (∀ b ∈ l₁, f b = .ok (g b)) → f a = .error e →
      (l₁ ++ a :: l₂).mapM f = .error e
  | [], a, l₂, _, ha => by
    simp only [List.nil_append, List.mapM_cons, ha]
    rfl
  | b :: rest, a, l₂, h, ha => by
    have h1 := h b (by simp)
    have ih := mapM_stops_at_error f g e rest a l₂ (fun c hc => h c (by simp [hc])) ha
    simp only [List.cons_append, List.mapM_cons, h1, ih]
    rfl

theorem hasOp_narrow_testBit (opts : Registry) (v : JsNum) (a : String ⊕ Nat) (i : Nat)
    (hres : resolveArg opts a = some i) (hi : i ≤ 31) :
    (BitSetE.mk opts (.num v)).hasOp a = .ok ((numToUint32 v).testBit i) := by
  have hm : (2 : Nat) ^ i < 2 ^ 32 := pow_lt_two_pow_32 hi
  have hand : numToUint32 v &&& 2 ^ i < 2 ^ 32 := Nat.and_lt_two_pow _ hm
  simp only [BitSetE.hasOp, hres, bitNum_nat hi, Except.map, jsAnd, jsAndI,
    jsTruthyNum, numToUint32_some_ofUint32 _ hm]
  congr 1
  rw [Nat.and_two_pow]
  have hz := ofUint32_eq_zero_iff (numToUint32 v &&& 2 ^ i) hand
  rw [Nat.and_two_pow] at hz
  cases hb : (numToUint32 v).testBit i
  · simp only [hb, Bool.toNat_false, Nat.zero_mul] at hz ⊢
    have h0 : ofUint32 0 = 0 := hz.mpr trivial
    simp [h0]
  · simp only [hb, Bool.toNat_true, Nat.one_mul] at hz ⊢
    have hne : (2 : Nat) ^ i ≠ 0 := (Nat.pow_pos (by norm_num)).ne'
    simp [Ne, hz, hne]

theorem hasOp_big_testBit (opts : Registry) (x : Int) (a : String ⊕ Nat) (i : Nat)
    (hres : resolveArg opts a = some i) :
    (BitSetE.mk opts (.big x)).hasOp a = .ok (x.testBit i) := by
  simp only [BitSetE.hasOp, hres]
  congr 1
  have h := int_land_two_pow_eq_zero_iff x i
  cases hb : x.testBit i
  · rw [hb] at h
    simp [h.mpr rfl]
  · rw [hb] at h
    have hne : Int.land x (bitBig i) ≠ 0 := fun hc => absurd (h.mp hc) (by decide)
    simp [hne]

theorem natBinLen_le_32 {x : Nat} (hx : x < 2 ^ 32) : natBinLen x ≤ 32 := by
  simp only [natBinLen]
  split
  · omega
  · have hlt : x.log2 < 32 := (Nat.log2_lt (by omega)).mpr hx
    omega

theorem entries_error_of_neg (opts : Registry) (x : Int) (hneg : x < 0)
    (hmag : 2 ^ 31 ≤ (-x).toNat) :
    (BitSetE.mk opts (.num (some x))).entriesByIndex = .error .bitRange := by
  have hne : (-x).toNat ≠ 0 := by omega
  have hlog : 31 ≤ ((-x).toNat).log2 := (Nat.le_log2 hne).mpr hmag
  have hlen : 33 ≤ binStrLen (.num (some x)) := by
    simp only [binStrLen, if_pos hneg, natBinLen, if_neg hne]
    omega
  obtain ⟨k, hk⟩ : ∃ k, binStrLen (.num (some x)) = 33 + k :=
    ⟨binStrLen (.num (some x)) - 33, by omega⟩
  have h32 : (BitSetE.mk opts (.num (some x))).hasOp (.inr 32) = .error .bitRange := by
    have hb : bitNum ((32 : Nat) : Int) = .error .bitRange := by
      simp [bitNum]
    simp only [BitSetE.hasOp, resolveArg, hb, Except.map]
  simp only [BitSetE.entriesByIndex]
  rw [hk, List.range_add, show List.range 33 = List.range 32 ++ [32] from List.range_succ 32]
  have hsplit : (List.range 32 ++ [32]) ++ (List.range k).map (fun i => 33 + i) =
      List.range 32 ++ (32 :: (List.range k).map (fun i => 33 + i)) := by
    simp
  rw [hsplit]
  refine mapM_stops_at_error _ (fun i => (i, (numToUint32 (some x)).testBit i)) _ _ _ _ ?_ ?_
  · intro b hb
    have hble : b ≤ 31 := by
      have := List.mem_range.mp hb
      omega
    rw [hasOp_narrow_testBit opts (some x) (.inr b) b rfl hble]
    rfl
  · rw [h32]
    rfl

/-! ## C7 -/

/-- C7 (corrected): for a stored value that is a non-negative integer
(and below `2^32` in the narrow kind), `entries(true)` yields exactly
one pair `[i, has(i)]` for each `i` below the bit-length of the value's
base-2 representation, in increasing order (for value zero: exactly
`[[0, false]]`, bit-length 1).  The original claim, quantified over
*every* FlagSet, fails on negative stored values — see the
counterexample. -/
theorem entries_by_index_spec (opts : Registry) :
    (∀ x : Nat, x < 2 ^ 32 →
      (BitSetE.mk opts (.num (some ((x : Nat) : Int)))).entriesByIndex =
        .ok ((List.range (natBinLen x)).map fun i => (i, x.testBit i)) ∧
      (∀ i, i < natBinLen x →
        (BitSetE.mk opts (.num (some ((x : Nat) : Int)))).hasOp (.inr i) =
          .ok (x.testBit i))) ∧
    (∀ x : Nat,
      (BitSetE.mk opts (.big ((x : Nat) : Int))).entriesByIndex =
        .ok ((List.range (natBinLen x)).map fun i => (i, x.testBit i)) ∧
      (∀ i, (BitSetE.mk opts (.big ((x : Nat) : Int))).hasOp (.inr i) =
        .ok (x.testBit i))) := by
  constructor
  · intro x hx
    have hnum : numToUint32 (some ((x : Nat) : Int)) = x := toUint32N_coe x hx
    have hlen : binStrLen (.num (some ((x : Nat) : Int))) = natBinLen x := by
      simp only [binStrLen, if_neg (not_lt.mpr (Int.natCast_nonneg x))]
      simp
    have hhas : ∀ i, i < natBinLen x →
        (BitSetE.mk opts (.num (some ((x : Nat) : Int)))).hasOp (.inr i) =
          .ok (x.testBit i) := by
      intro i hi
      have hle : i ≤ 31 := by
        have := natBinLen_le_32 hx
        omega
      rw [hasOp_narrow_testBit opts _ (.inr i) i rfl hle, hnum]
    refine ⟨?_, hhas⟩
    simp only [BitSetE.entriesByIndex, hlen]
    refine mapM_ok_of_forall _ (fun i => (i, x.testBit i)) _ ?_
    intro i hi
    rw [hhas i (List.mem_range.mp hi)]
    rfl
  · intro x
    have hlen : binStrLen (.big ((x : Nat) : Int)) = natBinLen x := by
      simp only [binStrLen, if_neg (not_lt.mpr (Int.natCast_nonneg x))]
      simp
    have hhas : ∀ i, (BitSetE.mk opts (.big ((x : Nat) : Int))).hasOp (.inr i) =
        .ok (x.testBit i) := by
      intro i
      rw [hasOp_big_testBit opts _ (.inr i) i rfl, int_testBit_ofNat]
    refine ⟨?_, hhas⟩
    simp only [BitSetE.entriesByIndex, hlen]
    refine mapM_ok_of_forall _ (fun i => (i, x.testBit i)) _ ?_
    intro i hi
    rw [hhas i]
    rfl

/-- C7 witness: on registry `{a:0, b:1, c:2}` with bits 0 and 2 set
(value 5), `entries(true)` yields exactly
`[[0,true],[1,false],[2,true]]`; on value 0 it yields `[[0,false]]`. -/
theorem entries_by_index_spec_witness :
    (BitSetE.mk [("a", 0), ("b", 1), ("c", 2)]
        (.num (some ((5 : Nat) : Int)))).entriesByIndex =
      .ok [(0, true), (1, false), (2, true)] ∧
    (BitSetE.mk [] (.num (some ((0 : Nat) : Int)))).entriesByIndex = .ok [(0, false)] := by
  have h5 := ((entries_by_index_spec [("a", 0), ("b", 1), ("c", 2)]).1 5 (by norm_num)).1
  have h0 := ((entries_by_index_spec []).1 0 (by norm_num)).1
  have hlen5 : natBinLen 5 = 3 := by simp [natBinLen, Nat.log2]
  have hlen0 : natBinLen 0 = 1 := by simp [natBinLen]
  rw [hlen5] at h5
  rw [hlen0] at h0
  exact ⟨by rw [h5]; rfl, by rw [h0]; rfl⟩

/-- C7 counterexample: after `set(31)` from zero the stored narrow value
is `-2147483648` (value accessor `2^31`, bit-length 32), and fully
iterating `entries(true)` throws instead of yielding one pair per bit
position as the claim states. -/
theorem entries_throw_example :
    (BitSetE.mk [] (.num (some 0))).setOp (.inr 31) =
      .ok (BitSetE.mk [] (.num (some (-2147483648)))) ∧
    (BitSetE.mk [] (.num (some (-2147483648)))).entriesByIndex = .error .bitRange :=
  ⟨by rfl, entries_error_of_neg [] _ (by norm_num) (by decide)⟩

/-! ## C10 -/

/-- C10 (corrected): iterating `entries(true)` on a narrow BitSet throws
when the stored value is negative with magnitude at least `2^31` (among
Int32 values, exactly `-2147483648`, i.e. only bit 31 set): the base-2
string has a leading sign and 32 digits, the loop reaches index 32, and
`has(32)` calls `bit(32)`, which throws.  The original claim asserted
this for *every* stored value with bit 31 set; it fails e.g. for
stored `-1` — see the counterexample. -/
theorem entries_throw_on_big_negative (opts : Registry) (x : Int)
    (hneg : x < 0) (hmag : 2 ^ 31 ≤ (-x).toNat) :
    (BitSetE.mk opts (.num (some x))).entriesByIndex = .error .bitRange :=
  entries_error_of_neg opts x hneg hmag

/-- C10 witness: the throw at the stored value `-2147483648` (only bit
31 set). -/
theorem entries_throw_on_big_negative_witness :
    (BitSetE.mk [("a", 0)] (.num (some (-2147483648)))).entriesByIndex =
      .error .bitRange :=
  entries_throw_on_big_negative [("a", 0)] (-2147483648) (by norm_num) (by decide)

/-- C10 counterexample: the stored narrow value `-1` (reachable by
`set(31)` on `2147483647`) has bit 31 set in its 32-bit pattern, yet
`(-1).toString(2)` is `"-1"` (length 2), so `entries(true)` yields
`[[0,true],[1,true]]` without throwing. -/
theorem entries_no_throw_on_minus_one :
    (BitSetE.mk [] (.num (some 2147483647))).setOp (.inr 31) =
      .ok (BitSetE.mk [] (.num (some (-1)))) ∧
    (numToUint32 (some (-1))).testBit 31 = true ∧
    (BitSetE.mk [] (.num (some (-1)))).entriesByIndex = .ok [(0, true), (1, true)] := by
  refine ⟨by rfl, by decide, ?_⟩
  have hl1 : Nat.log2 1 = 0 := by
    rw [Nat.log2]
    simp
  have hlen : binStrLen (.num (some (-1))) = 2 := by
    show (if (-1 : Int) < 0 then 1 + natBinLen ((-(-1) : Int)).toNat
      else natBinLen ((-1 : Int)).toNat) = 2
    rw [if_pos (by norm_num : (-1 : Int) < 0)]
    norm_num [natBinLen, hl1]
  simp only [BitSetE.entriesByIndex, hlen]
  rfl

/-! ## C6 -/

/-- C6 (corrected): the narrow constructors `fromBin`/`fromHex` never
fail — `parseInt` accepts any string, a malformed digit string parses
to `NaN` and the resulting FlagSet's observable value is `0` — while
the wide constructors `fromBinBigInt`/`fromHexBigInt` fail on every
malformed string, with the `SyntaxError` carrying the original input
string (`JsErr.badFormat s`). -/
theorem parse_constructors_spec (opts : Registry) :
    (∀ s : String, Instance.fromBin opts s = .ok ⟨opts, .num (parseIntJS 2 s)⟩) ∧
    (∀ s : String, Instance.fromHex opts s = .ok ⟨opts, .num (parseIntJS 16 s)⟩) ∧
    (∀ s : String, parseIntJS 2 s = none →
      (⟨opts, .num (parseIntJS 2 s)⟩ : BitSetE).valueAcc = .num 0) ∧
    (∀ s : String, parseIntJS 16 s = none →
      (⟨opts, .num (parseIntJS 16 s)⟩ : BitSetE).valueAcc = .num 0) ∧
    (∀ s : String, strToBigInt? s = none →
      Instance.fromBinBigInt opts s = .error (.badFormat s) ∧
      Instance.fromHexBigInt opts s = .error (.badFormat s)) := by
  refine ⟨fun s => rfl, fun s => rfl, ?_, ?_, ?_⟩
  · intro s h
    rw [h]
    rfl
  · intro s h
    rw [h]
    rfl
  · intro s h
    constructor
    · simp only [Instance.fromBinBigInt, h]
    · simp only [Instance.fromHexBigInt, h]

/-- C6 witness: the malformed binary string `"z"` parses to `NaN` and
yields a live FlagSet of value 0, while the malformed wide strings
`"0bz"` and `"0xzz"` make the bigint constructors fail with the input
preserved in the error. -/
theorem parse_constructors_spec_witness :
    Instance.fromBin [] "z" = .ok ⟨[], .num (parseIntJS 2 "z")⟩ ∧
    parseIntJS 2 "z" = none ∧
    (⟨[], .num (parseIntJS 2 "z")⟩ : BitSetE).valueAcc = .num 0 ∧
    Instance.fromBinBigInt [] "0bz" = .error (.badFormat "0bz") ∧
    Instance.fromHexBigInt [] "0xzz" = .error (.badFormat "0xzz") := by
  have hz : parseIntJS 2 "z" = none := by decide
  have hbz : strToBigInt? "0bz" = none := by decide
  have hxz : strToBigInt? "0xzz" = none := by decide
  exact ⟨(parse_constructors_spec []).1 "z", hz,
    (parse_constructors_spec []).2.2.1 "z" hz,
    ((parse_constructors_spec []).2.2.2.2 "0bz" hbz).1,
    ((parse_constructors_spec []).2.2.2.2 "0xzz" hxz).2⟩

/-- C6 counterexample: `fromBin('z')`, a malformed binary digit string,
**succeeds** — `parseInt('z', 2)` yields `NaN`, no error of any kind is
thrown, and the FlagSet reports value 0 — contradicting the claimed
FormatError. -/
theorem fromBin_malformed_no_error :
    Instance.fromBin [] "z" = .ok (BitSetE.mk [] (.num none)) ∧
    (BitSetE.mk [] (.num none)).valueAcc = .num 0 := by
  have hz : parseIntJS 2 "z" = none := by decide
  constructor
  · simp only [Instance.fromBin, hz]
  · rfl

/-! ## C3 helpers -/

theorem testBit_or_foldl (j : Nat) :
    ∀ (l : List Nat) (u : Nat), (l.foldl (fun u i => u ||| 2 ^ i) u).testBit j =
      (u.testBit j || l.any fun i => decide (i = j))
  | [], u => by simp
  | i :: rest, u => by
    simp only [List.foldl_cons, List.any_cons]
    rw [testBit_or_foldl j rest]
    simp [Nat.testBit_or, Nat.testBit_two_pow, Bool.or_assoc]

theorem or_foldl_lt : ∀ (l : List Nat) (u : Nat), u < 2 ^ 32 → (∀ i ∈ l, i ≤ 31) →
    l.foldl (fun u i => u ||| 2 ^ i) u < 2 ^ 32
  | [], u, hu, _ => hu
  | i :: rest, u, hu, h => by
    simp only [List.foldl_cons]
    exact or_foldl_lt rest _
      (Nat.or_lt_two_pow hu (pow_lt_two_pow_32 (h i (by simp))))
      (fun b hb => h b (by simp [hb]))

theorem find_pred {α : Type} (pred : α → Bool) :
    ∀ (l : List α) (a : α), l.find? pred = some a → a ∈ l ∧ pred a = true
  | [], _, h => by cases h
  | b :: rest, a, h => by
    cases hb : pred b with
    | true =>
      rw [List.find?_cons_of_pos _ hb] at h
      cases h
      exact ⟨by simp, hb⟩
    | false =>
      rw [List.find?_cons_of_neg _ (by simp [hb])] at h
      obtain ⟨hmem, hpa⟩ := find_pred pred rest a h
      exact ⟨by simp [hmem], hpa⟩

theorem lookup_find (r : Registry) (k : String) (i : Nat)
    (h : Registry.lookup r k = some i) : ∃ p, p ∈ r ∧ p.1 = k ∧ p.2 = i := by
  simp only [Registry.lookup] at h
  obtain ⟨p, hp, hpi⟩ := Option.map_eq_some'.mp h
  obtain ⟨hmem, hpk⟩ := find_pred _ r p hp
  exact ⟨p, hmem, of_decide_eq_true hpk, hpi⟩

theorem objLookup_mem (o : ObjMap) (k : String) (v : JsVal)
    (h : ObjMap.lookup o k = some v) : (k, v) ∈ o := by
  simp only [ObjMap.lookup] at h
  obtain ⟨p, hp, hpv⟩ := Option.map_eq_some'.mp h
  obtain ⟨hmem, hpk⟩ := find_pred _ o p hp
  have hk : p.1 = k := of_decide_eq_true hpk
  have : p = (k, v) := by
    cases p
    simp only at hk hpv
    rw [hk, hpv]
  rwa [this] at hmem

theorem objLookup_of_mem : ∀ (o : ObjMap), (o.map Prod.fst).Nodup →
    ∀ p ∈ o, ObjMap.lookup o p.1 = some p.2
  | [], _, p, hp => by cases hp
  | q :: rest, hnd, p, hp => by
    rw [List.map_cons] at hnd
    have hnd1 : q.1 ∉ rest.map Prod.fst := (List.nodup_cons.mp hnd).1
    have hnd2 : (rest.map Prod.fst).Nodup := (List.nodup_cons.mp hnd).2
    rcases List.mem_cons.mp hp with rfl | hp2
    · simp [ObjMap.lookup, List.find?]
    · have hne : q.1 ≠ p.1 := by
        intro hc
        refine hnd1 ?_
        rw [hc]
        exact List.mem_map.mpr ⟨p, hp2, rfl⟩
      have ih := objLookup_of_mem rest hnd2 p hp2
      simp only [ObjMap.lookup, List.find?] at ih ⊢
      rw [show (decide (q.1 = p.1)) = false from decide_eq_false hne]
      exact ih

theorem truthyAt_eq_true_iff (o : ObjMap) (k : String) :
    o.truthyAt k = true ↔ ∃ v, ObjMap.lookup o k = some v ∧ v.truthy = true := by
  unfold ObjMap.truthyAt
  cases h : ObjMap.lookup o k with
  | none => simp [h, JsVal.truthy]
  | some v => simp [h]

theorem mem_objMasks_iff (opts : Registry) (obj : ObjMap) (i : Nat) :
    i ∈ objMasks opts obj ↔
      ∃ p ∈ obj, p.2.truthy = true ∧ Registry.lookup opts p.1 = some i := by
  simp only [objMasks, List.mem_filterMap]
  constructor
  · rintro ⟨p, hp, hf⟩
    by_cases ht : p.2.truthy = true
    · rw [if_pos ht] at hf
      exact ⟨p, hp, ht, hf⟩
    · rw [if_neg ht] at hf
      cases hf
  · rintro ⟨p, hp, ht, hl⟩
    exact ⟨p, hp, by rw [if_pos ht]; exact hl⟩

theorem testBit_maskOr (opts : Registry) (obj : ObjMap)
    (hnodup : (obj.map Prod.fst).Nodup)
    (hagree : ∀ p ∈ opts, ∀ q ∈ opts, p.2 = q.2 → obj.truthyAt p.1 = obj.truthyAt q.1)
    (name : String) (i : Nat) (hname : Registry.lookup opts name = some i) :
    (maskOrN (objMasks opts obj)).testBit i = obj.truthyAt name := by
  have hiff : ((objMasks opts obj).any fun m => decide (m = i)) = true ↔
      obj.truthyAt name = true := by
    constructor
    · intro h
      obtain ⟨m, hm, hmi⟩ := List.any_eq_true.mp h
      have hmi2 : m = i := of_decide_eq_true hmi
      subst hmi2
      obtain ⟨p, hp, hptru, hplook⟩ := (mem_objMasks_iff opts obj m).mp hm
      obtain ⟨pr, hprmem, hprk, hpri⟩ := lookup_find opts p.1 m hplook
      obtain ⟨qr, hqrmem, hqrk, hqri⟩ := lookup_find opts name m hname
      have hag := hagree pr hprmem qr hqrmem (by rw [hpri, hqri])
      rw [hprk, hqrk] at hag
      rw [← hag]
      have hl := objLookup_of_mem obj hnodup p hp
      unfold ObjMap.truthyAt
      rw [hl]
      simpa using hptru
    · intro h
      obtain ⟨v, hv, hvt⟩ := (truthyAt_eq_true_iff obj name).mp h
      have hmem : (name, v) ∈ obj := objLookup_mem obj name v hv
      refine List.any_eq_true.mpr ⟨i, ?_, by simp⟩
      exact (mem_objMasks_iff opts obj i).mpr ⟨(name, v), hmem, hvt, by simpa using hname⟩
  rw [maskOrN, testBit_or_foldl i]
  simp only [Nat.zero_testBit, Bool.false_or]
  cases hany : ((objMasks opts obj).any fun m => decide (m = i)) <;>
    cases htru : obj.truthyAt name <;> simp_all

theorem fromObj_fold_narrow (opts : Registry) :
    ∀ (obj : ObjMap) (u : Nat), u < 2 ^ 32 →
      (∀ p ∈ obj, p.2.truthy = true → (Registry.lookup opts p.1).getD 0 ≤ 31) →
      (obj.foldlM
        (fun s p =>
          match Registry.lookup opts p.1 with
          | none => Except.ok s
          | some _ => if p.2.truthy then s.setOp (.inl p.1) else Except.ok s)
        (⟨opts, .num (some (ofUint32 u))⟩ : BitSetE)) =
      .ok ⟨opts, .num (some (ofUint32 ((objMasks opts obj).foldl (fun w i => w ||| 2 ^ i) u)))⟩
  | [], u, hu, _ => rfl
  | p :: rest, u, hu, hsmall => by
    have hrest : ∀ q ∈ rest, q.2.truthy = true → (Registry.lookup opts q.1).getD 0 ≤ 31 :=
      fun q hq => hsmall q (by simp [hq])
    cases hl : Registry.lookup opts p.1 with
    | none =>
      have hmask : objMasks opts (p :: rest) = objMasks opts rest := by
        cases ht : p.2.truthy <;> simp [objMasks, List.filterMap_cons, ht, hl]
      have ih := fromObj_fold_narrow opts rest u hu hrest
      simp only [List.foldlM_cons, hl, hmask]
      exact ih
    | some j =>
      cases ht : p.2.truthy with
      | false =>
        have hmask : objMasks opts (p :: rest) = objMasks opts rest := by
          simp [objMasks, List.filterMap_cons, ht]
        have ih := fromObj_fold_narrow opts rest u hu hrest
        simp only [List.foldlM_cons, hl, ht, hmask, if_neg (by simp : ¬(false = true))]
        exact ih
      | true =>
        have hj : j ≤ 31 := by
          have := hsmall p (by simp) ht
          rw [hl] at this
          simpa using this
        have hmask : objMasks opts (p :: rest) = j :: objMasks opts rest := by
          simp [objMasks, List.filterMap_cons, ht, hl]
        have hstep : (⟨opts, .num (some (ofUint32 u))⟩ : BitSetE).setOp (.inl p.1) =
            .ok ⟨opts, .num (some (ofUint32 (u ||| 2 ^ j)))⟩ := by
          have hres : resolveArg opts (.inl p.1) = some j := hl
          simp only [BitSetE.setOp, hres, bitNum_nat hj, Except.map, jsOr,
            numToUint32_some_ofUint32 _ hu,
            numToUint32_some_ofUint32 _ (pow_lt_two_pow_32 hj)]
        have ih := fromObj_fold_narrow opts rest (u ||| 2 ^ j)
          (Nat.or_lt_two_pow hu (pow_lt_two_pow_32 hj)) hrest
        simp only [List.foldlM_cons, hl, ht, if_pos rfl, hstep, hmask, List.foldl_cons]
        exact ih

theorem fromObj_fold_big (opts : Registry) :
    ∀ (obj : ObjMap) (w : Nat),
      (obj.foldlM
        (fun s p =>
          match Registry.lookup opts p.1 with
          | none => Except.ok s
          | some _ => if p.2.truthy then s.setOp (.inl p.1) else Except.ok s)
        (⟨opts, .big ((w : Nat) : Int)⟩ : BitSetE)) =
      .ok ⟨opts, .big (((objMasks opts obj).foldl (fun x i => x ||| 2 ^ i) w : Nat) : Int)⟩
  | [], w => rfl
  | p :: rest, w => by
    cases hl : Registry.lookup opts p.1 with
    | none =>
      have hmask : objMasks opts (p :: rest) = objMasks opts rest := by
        cases ht : p.2.truthy <;> simp [objMasks, List.filterMap_cons, ht, hl]
      have ih := fromObj_fold_big opts rest w
      simp only [List.foldlM_cons, hl, hmask]
      exact ih
    | some j =>
      cases ht : p.2.truthy with
      | false =>
        have hmask : objMasks opts (p :: rest) = objMasks opts rest := by
          simp [objMasks, List.filterMap_cons, ht]
        have ih := fromObj_fold_big opts rest w
        simp only [List.foldlM_cons, hl, ht, hmask, if_neg (by simp : ¬(false = true))]
        exact ih
      | true =>
        have hmask : objMasks opts (p :: rest) = j :: objMasks opts rest := by
          simp [objMasks, List.filterMap_cons, ht, hl]
        have hstep : (⟨opts, .big ((w : Nat) : Int)⟩ : BitSetE).setOp (.inl p.1) =
            .ok ⟨opts, .big (((w ||| 2 ^ j : Nat) : Nat) : Int)⟩ := by
          have hres : resolveArg opts (.inl p.1) = some j := hl
          simp only [BitSetE.setOp, hres]
          rfl
        have ih := fromObj_fold_big opts rest (w ||| 2 ^ j)
        simp only [List.foldlM_cons, hl, ht, if_pos rfl, hstep, hmask, List.foldl_cons]
        exact ih

/-! ## C3 -/

/-- C3 (corrected; `from`/`fromBigInt` are modelled from the spec as
they are absent from the sources).  Provided all registered names that
share a bit index agree in truthiness under `obj` (absent keys reading
as falsy) — in particular for injective registries; the original
unconditional claim fails under aliasing, see the counterexample —
`from(obj)` (narrow; registered truthy indices ≤ 31) and
`fromBigInt(obj)` (wide) produce the FlagSet whose value is the OR of
the masks of the registered truthy keys, in which every registered name
reads as set iff its `obj` value is truthy (names absent from `obj`
read unset), and keys absent from the registry are ignored without
error. -/
theorem fromObj_spec (opts : Registry) (obj : ObjMap)
    (hnodup : (obj.map Prod.fst).Nodup)
    (hagree : ∀ p ∈ opts, ∀ q ∈ opts, p.2 = q.2 → obj.truthyAt p.1 = obj.truthyAt q.1) :
    ((∀ p ∈ obj, p.2.truthy = true → (Registry.lookup opts p.1).getD 0 ≤ 31) →
      Instance.fromObj opts obj =
        .ok ⟨opts, .num (some (ofUint32 (maskOrN (objMasks opts obj))))⟩ ∧
      (∀ name i, Registry.lookup opts name = some i → i ≤ 31 →
        (⟨opts, .num (some (ofUint32 (maskOrN (objMasks opts obj))))⟩ : BitSetE).hasOp
          (.inl name) = .ok (obj.truthyAt name))) ∧
    (Instance.fromObjBigInt opts obj =
      .ok ⟨opts, .big ((maskOrN (objMasks opts obj) : Nat) : Int)⟩ ∧
      (∀ name i, Registry.lookup opts name = some i →
        (⟨opts, .big ((maskOrN (objMasks opts obj) : Nat) : Int)⟩ : BitSetE).hasOp
          (.inl name) = .ok (obj.truthyAt name))) ∧
    (∀ (k : String) (v : JsVal), Registry.lookup opts k = none →
      Instance.fromObj opts ((k, v) :: obj) = Instance.fromObj opts obj ∧
      Instance.fromObjBigInt opts ((k, v) :: obj) = Instance.fromObjBigInt opts obj) := by
  refine ⟨?_, ⟨?_, ?_⟩, ?_⟩
  · intro hsmall
    constructor
    · exact fromObj_fold_narrow opts obj 0 (by norm_num) hsmall
    · intro name i hl hi
      have hMlt : maskOrN (objMasks opts obj) < 2 ^ 32 := by
        refine or_foldl_lt _ 0 (by norm_num) ?_
        intro m hm
        obtain ⟨p, hp, hpt, hpl⟩ := (mem_objMasks_iff opts obj m).mp hm
        have := hsmall p hp hpt
        rw [hpl] at this
        simpa using this
      rw [hasOp_narrow_testBit opts _ (.inl name) i hl hi,
        numToUint32_some_ofUint32 _ hMlt,
        testBit_maskOr opts obj hnodup hagree name i hl]
  · exact fromObj_fold_big opts obj 0
  · intro name i hl
    rw [hasOp_big_testBit opts _ (.inl name) i hl, int_testBit_ofNat,
      testBit_maskOr opts obj hnodup hagree name i hl]
  · intro k v hk
    constructor
    · simp only [Instance.fromObj, List.foldlM_cons, hk]
      rfl
    · simp only [Instance.fromObjBigInt, List.foldlM_cons, hk]
      rfl

/-- C3 witness: the spec's scenario.  `from(obj)` sets exactly
`bar, baz, v1` (stored signed value `-2147481596`, pattern
`2^2 + 2^11 + 2^31`) with `foo` unset and all falsy-valued keys unset;
`fromBigInt(obj)` yields exactly the test's expected value
`2^2 + 2^31 + 2^111`. -/
theorem fromObj_spec_witness :
    Instance.fromObj scOptsNarrow scObj =
      .ok ⟨scOptsNarrow, .num (some (-2147481596))⟩ ∧
    ((⟨scOptsNarrow, .num (some (-2147481596))⟩ : BitSetE).hasOp (.inl "foo") = .ok false ∧
     (⟨scOptsNarrow, .num (some (-2147481596))⟩ : BitSetE).hasOp (.inl "bar") = .ok true ∧
     (⟨scOptsNarrow, .num (some (-2147481596))⟩ : BitSetE).hasOp (.inl "baz") = .ok true ∧
     (⟨scOptsNarrow, .num (some (-2147481596))⟩ : BitSetE).hasOp (.inl "v1") = .ok true ∧
     (⟨scOptsNarrow, .num (some (-2147481596))⟩ : BitSetE).hasOp (.inl "v2") = .ok false ∧
     (⟨scOptsNarrow, .num (some (-2147481596))⟩ : BitSetE).hasOp (.inl "v3") = .ok false ∧
     (⟨scOptsNarrow, .num (some (-2147481596))⟩ : BitSetE).hasOp (.inl "v4") = .ok false ∧
     (⟨scOptsNarrow, .num (some (-2147481596))⟩ : BitSetE).hasOp (.inl "v5") = .ok false ∧
     (⟨scOptsNarrow, .num (some (-2147481596))⟩ : BitSetE).hasOp (.inl "v6") = .ok false) ∧
    Instance.fromObjBigInt scOptsWide scObj =
      .ok ⟨scOptsWide, .big 2596148429267413814265250312093700⟩ ∧
    ((⟨scOptsWide, .big 2596148429267413814265250312093700⟩ : BitSetE).hasOp
        (.inl "foo") = .ok false ∧
     (⟨scOptsWide, .big 2596148429267413814265250312093700⟩ : BitSetE).hasOp
        (.inl "bar") = .ok true ∧
     (⟨scOptsWide, .big 2596148429267413814265250312093700⟩ : BitSetE).hasOp
        (.inl "v1") = .ok true ∧
     (⟨scOptsWide, .big 2596148429267413814265250312093700⟩ : BitSetE).hasOp
        (.inl "v6") = .ok false) := by
  have hMn : ofUint32 (maskOrN (objMasks scOptsNarrow scObj)) = -2147481596 := by decide
  have hMb : ((maskOrN (objMasks scOptsWide scObj) : Nat) : Int) =
      2596148429267413814265250312093700 := by decide
  obtain ⟨hN, _, _⟩ := fromObj_spec scOptsNarrow scObj (by decide) (by decide)
  obtain ⟨hNok, hNhas⟩ := hN (by decide)
  obtain ⟨hBok, hBhas⟩ := (fromObj_spec scOptsWide scObj (by decide) (by decide)).2.1
  rw [hMn] at hNok hNhas
  rw [hMb] at hBok hBhas
  refine ⟨hNok, ⟨?_, ?_, ?_, ?_, ?_, ?_, ?_, ?_, ?_⟩, hBok, ?_, ?_, ?_, ?_⟩
  · have h := hNhas "foo" 1 (by decide) (by decide)
    rwa [show scObj.truthyAt "foo" = false from by decide] at h
  · have h := hNhas "bar" 2 (by decide) (by decide)
    rwa [show scObj.truthyAt "bar" = true from by decide] at h
  · have h := hNhas "baz" 31 (by decide) (by decide)
    rwa [show scObj.truthyAt "baz" = true from by decide] at h
  · have h := hNhas "v1" 11 (by decide) (by decide)
    rwa [show scObj.truthyAt "v1" = true from by decide] at h
  · have h := hNhas "v2" 12 (by decide) (by decide)
    rwa [show scObj.truthyAt "v2" = false from by decide] at h
  · have h := hNhas "v3" 13 (by decide) (by decide)
    rwa [show scObj.truthyAt "v3" = false from by decide] at h
  · have h := hNhas "v4" 14 (by decide) (by decide)
    rwa [show scObj.truthyAt "v4" = false from by decide] at h
  · have h := hNhas "v5" 15 (by decide) (by decide)
    rwa [show scObj.truthyAt "v5" = false from by decide] at h
  · have h := hNhas "v6" 15 (by decide) (by decide)
    rwa [show scObj.truthyAt "v6" = false from by decide] at h
  · have h := hBhas "foo" 1 (by decide)
    rwa [show scObj.truthyAt "foo" = false from by decide] at h
  · have h := hBhas "bar" 2 (by decide)
    rwa [show scObj.truthyAt "bar" = true from by decide] at h
  · have h := hBhas "v1" 111 (by decide)
    rwa [show scObj.truthyAt "v1" = true from by decide] at h
  · have h := hBhas "v6" 115 (by decide)
    rwa [show scObj.truthyAt "v6" = false from by decide] at h

/-- C3 counterexample: registry `{x:0, y:0}` aliases two names to bit 0
(legal per spec §3, "duplicate indices are legal").  With input
`{x: true, y: 0}` the claim requires `y` to be **unset** (`0` is
falsy), but building the FlagSet sets bit 0 for `x` and `has('y')`
reads that same bit: it is `true`. -/
theorem fromObj_alias_counterexample :
    Instance.fromObj [("x", 0), ("y", 0)] [("x", .bool true), ("y", .int 0)] =
      .ok (BitSetE.mk [("x", 0), ("y", 0)] (.num (some 1))) ∧
    (BitSetE.mk [("x", 0), ("y", 0)] (.num (some 1))).hasOp (.inl "y") = .ok true := by
  constructor
  · rfl
  · rfl

end BitsSpec
